import Mathlib

/-!
A shallow embedding of the `pixelmatch` perceptual image-diff library
(`src/lib.rs`) and proofs about it.

Embedding conventions:
* `f32` arithmetic is modelled by exact rational arithmetic (`ℚ`); every
  numeric literal of the source appears verbatim as the corresponding
  rational.
* PNG decoding/encoding is an external collaborator of the core; the core
  is embedded directly over decoded images: a width, a height and a pixel
  accessor (`image::GenericImageView::get_pixel`).
* The output image (`DynamicImage::new_rgba8`, written via `put_pixel`) is
  modelled as a total function from coordinates to pixels, initially the
  all-zero pixel, updated pointwise.
* Early `return`s inside the neighbour-scanning loops of `antialiased` and
  `has_many_siblings` are modelled by running the whole scan and testing the
  (monotonically growing) counters afterwards, which yields the same value.
* `pixelmatch`'s final PNG encoding of the output buffer is omitted; the
  buffer itself is returned next to the diff count.
-/

namespace Pixelmatch

/-- An RGBA pixel: four 8-bit channels, modelled as naturals
(`image::Rgba<u8>`). -/
structure Rgba where
  r : Nat
  g : Nat
  b : Nat
  a : Nat
deriving DecidableEq, Repr

/-- A decoded image: dimensions plus a pixel accessor, the capability the
core uses from `image::DynamicImage` (`dimensions`, `get_pixel`). -/
structure Image where
  width : Nat
  height : Nat
  pix : Nat → Nat → Rgba

/-- The mutable RGBA output image, as a total map from coordinates to
pixels. -/
abbrev Buffer := Nat → Nat → Rgba

/-- `GenericImage::put_pixel`: pointwise update of the output image. -/
def put_pixel (buf : Buffer) (x y : Nat) (c : Rgba) : Buffer :=
  fun x' y' => if x' = x ∧ y' = y then c else buf x' y'

/-- The pixel every coordinate of a fresh `DynamicImage::new_rgba8` output
holds: all four channels zero. -/
def blank_pixel : Rgba := ⟨0, 0, 0, 0⟩

/-- `blend`: blend a semi-transparent channel value with white. -/
def blend (c a : ℚ) : ℚ := 255 + (c - 255) * a

/-- `rgb2y`: luma (Y) coefficients of the YIQ conversion. -/
def rgb2y (r g b : ℚ) : ℚ := r * 0.29889531 + g * 0.58662247 + b * 0.11448223

/-- `rgb2i`: the I chroma component of the YIQ conversion. -/
def rgb2i (r g b : ℚ) : ℚ := r * 0.59597799 - g * 0.27417610 - b * 0.32180189

/-- `rgb2q`: the Q chroma component of the YIQ conversion. -/
def rgb2q (r g b : ℚ) : ℚ := r * 0.21147017 - g * 0.52261711 + b * 0.31114694

/-- The channel preprocessing step of `color_delta` (`src/lib.rs:284-296`):
a color whose alpha is below full opacity is blended toward white,
channelwise, with `a/255`; a fully opaque color is kept as is. -/
def blendedChannels (p : Rgba) : ℚ × ℚ × ℚ :=
  let a : ℚ := (p.a : ℚ)
  if a < 255 then
    (blend (p.r : ℚ) (a / 255), blend (p.g : ℚ) (a / 255), blend (p.b : ℚ) (a / 255))
  else
    ((p.r : ℚ), (p.g : ℚ), (p.b : ℚ))

/-- The perceptual luma of a color after the white-blending preprocessing of
`color_delta` (the `y1`/`y2` of `src/lib.rs:298-299`). -/
def blendedLuma (p : Rgba) : ℚ :=
  rgb2y (blendedChannels p).1 (blendedChannels p).2.1 (blendedChannels p).2.2

/-- `color_delta` (`src/lib.rs:269-318`): signed perceptual YIQ distance
between two RGBA colors, or the luma difference alone when `y_only`. -/
def color_delta (rgba1 rgba2 : Rgba) (y_only : Bool) : ℚ :=
  if rgba1.a = rgba2.a ∧ rgba1.r = rgba2.r ∧ rgba1.g = rgba2.g ∧ rgba1.b = rgba2.b then
    0
  else
    let c1 := blendedChannels rgba1
    let c2 := blendedChannels rgba2
    let y1 := rgb2y c1.1 c1.2.1 c1.2.2
    let y2 := rgb2y c2.1 c2.2.1 c2.2.2
    let y := y1 - y2
    if y_only then y
    else
      let i := rgb2i c1.1 c1.2.1 c1.2.2 - rgb2i c2.1 c2.2.1 c2.2.2
      let q := rgb2q c1.1 c1.2.1 c1.2.2 - rgb2q c2.1 c2.2.1 c2.2.2
      let delta := 0.5053 * y * y + 0.299 * i * i + 0.1957 * q * q
      if y1 > y2 then -delta else delta

/-- The coordinate clamping of the 3×3 neighbour scans
(`src/lib.rs:179-186`, `244-251`): `(v).max(0).min(limit - 1)` over `i32`,
cast back to an unsigned coordinate.  (For `limit = 0` the source would
produce a huge `u32` and panic inside `get_pixel`; that case is unreachable
because the scans are only invoked at coordinates of existing pixels.) -/
def clampCoord (v : Int) (limit : Nat) : Nat :=
  (min (max v 0) ((limit : Int) - 1)).toNat

/-- The eight neighbour offsets of the 3×3 window, in the order the source's
nested loops visit them (`relative_x` outer, `relative_y` inner, the center
skipped). -/
def neighborOffsets : List (Int × Int) :=
  [(-1, -1), (-1, 0), (-1, 1), (0, -1), (0, 1), (1, -1), (1, 0), (1, 1)]

/-- The brightness-only delta between the center pixel `(x, y)` of `img` and
the clamped neighbour at offset `off` (`src/lib.rs:179-188`). -/
def aaDelta (img : Image) (x y width height : Nat) (off : Int × Int) : ℚ :=
  color_delta (img.pix x y)
    (img.pix (clampCoord ((x : Int) + off.1) width)
             (clampCoord ((y : Int) + off.2) height))
    true

/-- The running state of `antialiased`'s neighbour scan
(`src/lib.rs:162-168`): the zero-delta counter, the running minimum and
maximum deltas, and the coordinates at which they were attained. -/
structure AAState where
  zeroes : Nat
  min : ℚ
  max : ℚ
  min_x : Nat
  min_y : Nat
  max_x : Nat
  max_y : Nat

/-- One iteration of `antialiased`'s neighbour loop (`src/lib.rs:172-217`):
a zero delta bumps the counter, a delta below the running minimum (resp.
above the running maximum) replaces it and records the neighbour's
coordinates. -/
def aaStep (img : Image) (x y width height : Nat) (st : AAState)
    (off : Int × Int) : AAState :=
  let adjacent_x := clampCoord ((x : Int) + off.1) width
  let adjacent_y := clampCoord ((y : Int) + off.2) height
  let delta := aaDelta img x y width height off
  if delta = 0 then
    ⟨st.zeroes + 1, st.min, st.max, st.min_x, st.min_y, st.max_x, st.max_y⟩
  else if delta < st.min then
    ⟨st.zeroes, delta, st.max, adjacent_x, adjacent_y, st.max_x, st.max_y⟩
  else if delta > st.max then
    ⟨st.zeroes, st.min, delta, st.min_x, st.min_y, adjacent_x, adjacent_y⟩
  else st

/-- The full neighbour scan of `antialiased` over the eight offsets, from
the all-zero initial state. -/
def aaScan (img : Image) (x y width height : Nat) : AAState :=
  neighborOffsets.foldl (aaStep img x y width height) ⟨0, 0, 0, 0, 0, 0, 0⟩

/-- `has_many_siblings` (`src/lib.rs:233-265`): whether a pixel has more
than 2 neighbours (in the clamped 3×3 window) of exactly its own RGBA color.
The source's early `return true` once the counter passes 2 is modelled by
comparing the completed count. -/
def has_many_siblings (img : Image) (x y width height : Nat) : Bool :=
  let center := img.pix x y
  let zeroes := neighborOffsets.foldl
    (fun (n : Nat) off =>
      if img.pix (clampCoord ((x : Int) + off.1) width)
                 (clampCoord ((y : Int) + off.2) height) = center
      then n + 1 else n) 0
  zeroes > 2

/-- `antialiased` (`src/lib.rs:154-230`): the anti-aliasing heuristic.  The
source's early `return false` once `zeroes > 2` is modelled by testing the
completed count first, which yields the same value (the counter only
grows, and the early return discards the rest of the scan's state). -/
def antialiased (img1 : Image) (x y width height : Nat) (img2 : Image) : Bool :=
  let st := aaScan img1 x y width height
  if st.zeroes > 2 then false
  else if st.min = 0 ∨ st.max = 0 then false
  else
    (has_many_siblings img1 st.min_x st.min_y width height
      && has_many_siblings img2 st.min_x st.min_y width height)
    || (has_many_siblings img1 st.max_x st.max_y width height
      && has_many_siblings img2 st.max_x st.max_y width height)

/-- The comparison options (`Options`, `src/lib.rs:6-21`), with the source's
field names. -/
structure Options where
  threshold : ℚ
  include_aa : Bool
  alpha : ℚ
  aa_color : Rgba
  diff_color : Rgba
  diff_color_alt : Option Rgba
  diff_mask : Bool

/-- `Options::default` (`src/lib.rs:23-35`). -/
def default_options : Options :=
  ⟨0.1, false, 0.1, ⟨255, 255, 0, 255⟩, ⟨255, 0, 0, 255⟩, none, false⟩

/-- The two validation errors `pixelmatch` itself produces:
`sizesDoNotMatch` is the source's "Image sizes do not match." and
`dataSizeMismatch` its "Image data size does not match width/height."
(`src/lib.rs:49-61`).  Decode and encoding errors belong to the external
PNG collaborator and are outside the embedding. -/
inductive PmError where
  | sizesDoNotMatch
  | dataSizeMismatch
deriving DecidableEq, Repr

/-- The coordinates `(x, y)` visited by the `pixels()` iterator of the
`image` crate: row-major, `x` fastest. -/
def imageCoords (width height : Nat) : List (Nat × Nat) :=
  (List.range height).flatMap fun y => (List.range width).map fun x => (x, y)

/-- The identical-images prescan (`src/lib.rs:72-79`): every pixel pair of
the zipped iterators is equal. -/
def identicalImages (img1 img2 : Image) : Bool :=
  (imageCoords img1.width img1.height).all fun c =>
    decide (img1.pix c.1 c.2 = img2.pix c.1 c.2)

/-- Rust's saturating `f32 as u8` cast used on the blended gray value
(`src/lib.rs:331-334`): truncate toward zero and clamp into `[0, 255]`. -/
def f32_as_u8 (q : ℚ) : Nat :=
  if q < 0 then 0 else min q.floor.toNat 255

/-- `draw_gray_pixel` (`src/lib.rs:320-339`): write the source pixel as a
grayscale value blended with white into the output at its own coordinate.
The source's out-of-bounds error branch is omitted: the caller only passes
coordinates of `img1`'s pixels and the output shares `img1`'s dimensions,
so the branch is unreachable (the spec calls it an internal invariant). -/
def draw_gray_pixel (x y : Nat) (rgba : Rgba) (alpha : ℚ) (output : Buffer) :
    Buffer :=
  let val := f32_as_u8 (blend (rgb2y (rgba.r : ℚ) (rgba.g : ℚ) (rgba.b : ℚ))
    ((alpha * (rgba.a : ℚ)) / 255))
  put_pixel output x y ⟨val, val, val, val⟩

/-- The three outcomes of the per-pixel classification of the general
comparison path. -/
inductive PixelClass where
  | matched
  | antialiasing
  | genuineDiff
deriving DecidableEq, Repr

/-- The anti-aliasing suppression test of the main loop
(`src/lib.rs:105-120`): `!options.include_aa && (antialiased(img1, …, img2)
|| antialiased(img2, …, img1))`, both calls receiving `img1`'s
dimensions. -/
def aaSuppressed (img1 img2 : Image) (options : Options) (x y : Nat) : Bool :=
  !options.include_aa
    && (antialiased img1 x y img1.width img1.height img2
        || antialiased img2 x y img1.width img1.height img1)

/-- The per-pixel classification of `pixelmatch`'s main loop
(`src/lib.rs:101-121`): a pair whose delta magnitude exceeds
`max_delta = 35215 · threshold²` is a genuine difference unless (with
`include_aa` unset) either image reports the coordinate as anti-aliased;
otherwise the pair matches. -/
def classifyPixel (img1 img2 : Image) (options : Options) (x y : Nat) :
    PixelClass :=
  let delta := color_delta (img1.pix x y) (img2.pix x y) false
  let max_delta := 35215 * options.threshold * options.threshold
  if |delta| > max_delta then
    if aaSuppressed img1 img2 options x y then .antialiasing
    else .genuineDiff
  else .matched

/-- One iteration of `pixelmatch`'s main loop (`src/lib.rs:101-143`),
carrying the diff count and the optional output buffer:
* anti-aliasing: draw `aa_color` unless masking, count unchanged;
* genuine difference: draw `diff_color_alt` (falling back to `diff_color`)
  when `delta < 0`, else `diff_color`, and increment the count;
* match: draw the grayscale background from `img1`'s pixel unless masking. -/
def pmStep (img1 img2 : Image) (options : Options)
    (s : Nat × Option Buffer) (c : Nat × Nat) : Nat × Option Buffer :=
  match classifyPixel img1 img2 options c.1 c.2 with
  | .antialiasing =>
      (s.1,
        match s.2, options.diff_mask with
        | some b, false => some (put_pixel b c.1 c.2 options.aa_color)
        | o, _ => o)
  | .genuineDiff =>
      let delta := color_delta (img1.pix c.1 c.2) (img2.pix c.1 c.2) false
      let color := if delta < 0 then
          options.diff_color_alt.getD options.diff_color
        else options.diff_color
      (s.1 + 1, s.2.map fun b => put_pixel b c.1 c.2 color)
  | .matched =>
      (s.1,
        match s.2, options.diff_mask with
        | some b, false =>
            some (draw_gray_pixel c.1 c.2 (img1.pix c.1 c.2) options.alpha b)
        | o, _ => o)

/-- The caller-supplied expected-dimension validation (`src/lib.rs:55-61`):
only performed when both `width` and `height` are present. -/
def expectedDimsMismatch (width height : Option Nat) (dims : Nat × Nat) :
    Bool :=
  match width, height with
  | some w, some h => decide ((w, h) ≠ dims)
  | _, _ => false

/-- `pixelmatch` (`src/lib.rs:37-150`) over already-decoded images: validate
dimensions, allocate the output when requested, take the fast path when the
images are identical, otherwise run the classification loop.  Returns the
diff count and the final output buffer (whose PNG encoding is external). -/
def pixelmatch (img1 img2 : Image) (hasOutput : Bool)
    (width height : Option Nat) (options : Option Options) :
    Except PmError (Nat × Option Buffer) :=
  if (img1.width, img1.height) ≠ (img2.width, img2.height) then
    .error .sizesDoNotMatch
  else if expectedDimsMismatch width height (img1.width, img1.height) then
    .error .dataSizeMismatch
  else
    let opts := options.getD default_options
    let img_out : Option Buffer :=
      if hasOutput then some (fun _ _ => blank_pixel) else none
    if identicalImages img1 img2 then
      let img_out := img_out.map fun b =>
        if ¬opts.diff_mask then
          (imageCoords img1.width img1.height).foldl
            (fun bb c => draw_gray_pixel c.1 c.2 (img1.pix c.1 c.2) opts.alpha bb) b
        else b
      .ok (0, img_out)
    else
      .ok ((imageCoords img1.width img1.height).foldl
        (pmStep img1 img2 opts) (0, img_out))

/-- The diff count of a `pixelmatch` result, when it succeeded. -/
def diffCount (r : Except PmError (Nat × Option Buffer)) : Option Nat :=
  match r with
  | .ok (n, _) => some n
  | .error _ => none

/-- The output pixel a successful `pixelmatch` run with an output buffer
left at `(x, y)`. -/
def outputPixel (r : Except PmError (Nat × Option Buffer)) (x y : Nat) :
    Option Rgba :=
  match r with
  | .ok (_, some b) => some (b x y)
  | _ => none

/-- How many of the eight clamped 3×3 neighbours of `(x, y)` have zero
brightness-only delta against the center (the quantity `antialiased`'s
`zeroes` counter tracks). -/
def zeroDeltaNeighborCount (img : Image) (x y width height : Nat) : Nat :=
  neighborOffsets.countP fun off => decide (aaDelta img x y width height off = 0)

/-! Concrete fixtures used by witnesses and counterexamples. -/

/-- A fully opaque black pixel. -/
def blackPx : Rgba := ⟨0, 0, 0, 255⟩

/-- A fully opaque white pixel. -/
def whitePx : Rgba := ⟨255, 255, 255, 255⟩

/-- A 1×1 image holding the single pixel `p`. -/
def onePx (p : Rgba) : Image := ⟨1, 1, fun _ _ => p⟩

/-- A 2×1 image: a dark gray pixel at `x = 0` and `p` at `x = 1`. -/
def twoPx (p : Rgba) : Image := ⟨2, 1, fun x _ => if x = 0 then ⟨7, 7, 7, 255⟩ else p⟩

/-- Default options with a green `diff_color_alt` configured. -/
def altOptions : Options :=
  ⟨0.1, false, 0.1, ⟨255, 255, 0, 255⟩, ⟨255, 0, 0, 255⟩, some ⟨0, 255, 0, 255⟩, false⟩

/-- Default options with `diff_mask` enabled. -/
def maskOptions : Options :=
  ⟨0.1, false, 0.1, ⟨255, 255, 0, 255⟩, ⟨255, 0, 0, 255⟩, none, true⟩

/-! ## Helper lemmas -/

theorem Rgba.eq_iff_channels {p1 p2 : Rgba} :
    p1 = p2 ↔ p1.a = p2.a ∧ p1.r = p2.r ∧ p1.g = p2.g ∧ p1.b = p2.b := by
  cases p1; cases p2; simp [Rgba.mk.injEq]; tauto

theorem color_delta_self {p1 p2 : Rgba} (h : p1 = p2) (yo : Bool) :
    color_delta p1 p2 yo = 0 := by
  rw [color_delta, if_pos (Rgba.eq_iff_channels.mp h)]

/-- The sign analysis of the non-brightness-only branch of `color_delta`:
the weighted squared distance is strictly positive when the lumas differ,
and nonnegative always, so the negated-when-brighter value is negative
exactly when the first luma is larger. -/
theorem signed_dist_neg_iff (a b i q : ℚ) :
    ((if a > b then
        -(0.5053 * (a - b) * (a - b) + 0.299 * i * i + 0.1957 * q * q)
      else
        0.5053 * (a - b) * (a - b) + 0.299 * i * i + 0.1957 * q * q) < 0)
      ↔ a > b := by
  have hi : 0 ≤ i * i := mul_self_nonneg i
  have hq : 0 ≤ q * q := mul_self_nonneg q
  split_ifs with h
  · have hy : 0 < (a - b) * (a - b) :=
      mul_self_pos.mpr (sub_ne_zero.mpr (ne_of_gt h))
    constructor
    · intro _; exact h
    · intro _; nlinarith
  · constructor
    · intro hlt
      exfalso
      have hyy : 0 ≤ (a - b) * (a - b) := mul_self_nonneg _
      nlinarith
    · intro hc; exact absurd hc h

theorem color_delta_neg_iff {p1 p2 : Rgba} (h : p1 ≠ p2) :
    color_delta p1 p2 false < 0 ↔ blendedLuma p1 > blendedLuma p2 := by
  rw [color_delta, if_neg (fun hc => h (Rgba.eq_iff_channels.mpr hc))]
  simpa [blendedLuma] using
    signed_dist_neg_iff (blendedLuma p1) (blendedLuma p2)
      (rgb2i (blendedChannels p1).1 (blendedChannels p1).2.1 (blendedChannels p1).2.2
        - rgb2i (blendedChannels p2).1 (blendedChannels p2).2.1 (blendedChannels p2).2.2)
      (rgb2q (blendedChannels p1).1 (blendedChannels p1).2.1 (blendedChannels p1).2.2
        - rgb2q (blendedChannels p2).1 (blendedChannels p2).2.1 (blendedChannels p2).2.2)

theorem abs_ite_neg (c : Prop) [Decidable c] (d : ℚ) :
    |if c then -d else d| = |d| := by
  split_ifs with h
  · exact abs_neg d
  · rfl

/-- The magnitude of `color_delta` is symmetric in its two colors: the
squared YIQ distance uses only squared channel differences, and the sign
flip does not change the absolute value. -/
theorem abs_color_delta_comm (p1 p2 : Rgba) :
    |color_delta p1 p2 false| = |color_delta p2 p1 false| := by
  by_cases h : p1 = p2
  · rw [color_delta_self h, color_delta_self (h.symm)]
  · have h1 : ¬(p1.a = p2.a ∧ p1.r = p2.r ∧ p1.g = p2.g ∧ p1.b = p2.b) :=
      fun hc => h (Rgba.eq_iff_channels.mpr hc)
    have h2 : ¬(p2.a = p1.a ∧ p2.r = p1.r ∧ p2.g = p1.g ∧ p2.b = p1.b) :=
      fun hc => h (Rgba.eq_iff_channels.mpr hc).symm
    simp only [color_delta, if_neg h1, if_neg h2, Bool.false_eq_true, if_false]
    rw [abs_ite_neg, abs_ite_neg]
    congr 1
    ring

/-- The scaled threshold `max_delta = 35215 · threshold²` is nonnegative for
every threshold. -/
theorem max_delta_nonneg (t : ℚ) : 0 ≤ 35215 * t * t := by
  have := mul_self_nonneg t
  nlinarith

theorem classifyPixel_matched_iff (img1 img2 : Image) (opts : Options)
    (x y : Nat) :
    classifyPixel img1 img2 opts x y = .matched ↔
      |color_delta (img1.pix x y) (img2.pix x y) false|
        ≤ 35215 * opts.threshold * opts.threshold := by
  rw [classifyPixel]
  split_ifs with h1 h2
  · exact iff_of_false (by simp) (not_le.mpr h1)
  · exact iff_of_false (by simp) (not_le.mpr h1)
  · exact iff_of_true rfl (not_lt.mp h1)

theorem classifyPixel_genuineDiff_iff (img1 img2 : Image) (opts : Options)
    (x y : Nat) :
    classifyPixel img1 img2 opts x y = .genuineDiff ↔
      35215 * opts.threshold * opts.threshold
          < |color_delta (img1.pix x y) (img2.pix x y) false|
        ∧ aaSuppressed img1 img2 opts x y = false := by
  rw [classifyPixel]
  split_ifs with h1 h2
  · exact iff_of_false (by simp) (fun hc => by rw [hc.2] at h2; exact absurd h2 (by simp))
  · exact iff_of_true rfl ⟨h1, by revert h2; cases aaSuppressed img1 img2 opts x y <;> simp⟩
  · exact iff_of_false (by simp) (fun hc => absurd hc.1 h1)

theorem diffCount_ok (p : Nat × Option Buffer) :
    diffCount (Except.ok p) = some p.1 := by
  cases p; rfl

theorem pmStep_fst (img1 img2 : Image) (opts : Options)
    (s : Nat × Option Buffer) (c : Nat × Nat) :
    (pmStep img1 img2 opts s c).1 =
      s.1 + (if classifyPixel img1 img2 opts c.1 c.2 = .genuineDiff then 1 else 0) := by
  rcases h : classifyPixel img1 img2 opts c.1 c.2 with _ | _ | _ <;>
    simp [pmStep, h]

/-- The first component of the main loop's fold is the number of coordinates
classified as a genuine difference, regardless of the rendering state. -/
theorem foldl_pmStep_fst (img1 img2 : Image) (opts : Options) :
    ∀ (l : List (Nat × Nat)) (s : Nat × Option Buffer),
      (l.foldl (pmStep img1 img2 opts) s).1 =
        s.1 + l.countP
          (fun c => decide (classifyPixel img1 img2 opts c.1 c.2 = .genuineDiff)) := by
  intro l
  induction l with
  | nil => intro s; simp
  | cons c l ih =>
      intro s
      rw [List.foldl_cons, ih, List.countP_cons, pmStep_fst]
      by_cases hc : classifyPixel img1 img2 opts c.1 c.2 = .genuineDiff
      · simp [hc]
        omega
      · simp [hc]

/-- A closed characterization of the diff count `pixelmatch` returns:
`none` on a failed validation, `0` on the identical fast path, and the
number of genuine-difference coordinates otherwise. -/
theorem diffCount_pixelmatch (img1 img2 : Image) (hasOutput : Bool)
    (width height : Option Nat) (options : Option Options) :
    diffCount (pixelmatch img1 img2 hasOutput width height options) =
      if (img1.width, img1.height) ≠ (img2.width, img2.height) then none
      else if expectedDimsMismatch width height (img1.width, img1.height) then none
      else if identicalImages img1 img2 then some 0
      else some ((imageCoords img1.width img1.height).countP
        (fun c => decide (classifyPixel img1 img2 (options.getD default_options)
          c.1 c.2 = .genuineDiff))) := by
  rw [pixelmatch]
  split_ifs with h1 h2 h3 h4
  · rfl
  · rfl
  · rfl
  · rw [diffCount_ok, foldl_pmStep_fst]
    simp
  · rfl
  · rw [diffCount_ok, foldl_pmStep_fst]
    simp

theorem identicalImages_self (img : Image) : identicalImages img img = true := by
  rw [identicalImages]
  exact List.all_eq_true.mpr fun c _ => decide_eq_true rfl

theorem mem_imageCoords {w h x y : Nat} :
    (x, y) ∈ imageCoords w h ↔ x < w ∧ y < h := by
  simp only [imageCoords, List.mem_flatMap, List.mem_map, List.mem_range,
    Prod.mk.injEq]
  constructor
  · rintro ⟨y', hy', x', hx', hx, hy⟩
    subst hx; subst hy
    exact ⟨hx', hy'⟩
  · rintro ⟨hx, hy⟩
    exact ⟨y, hy, x, hx, rfl, rfl⟩

theorem identicalImages_pix {img1 img2 : Image}
    (hid : identicalImages img1 img2 = true) {x y : Nat}
    (hx : x < img1.width) (hy : y < img1.height) :
    img1.pix x y = img2.pix x y := by
  rw [identicalImages] at hid
  have := List.all_eq_true.mp hid (x, y) (mem_imageCoords.mpr ⟨hx, hy⟩)
  exact of_decide_eq_true this

theorem list_all_congr {α : Type} {f g : α → Bool} :
    ∀ (l : List α), (∀ a ∈ l, f a = g a) → l.all f = l.all g := by
  intro l h
  induction l with
  | nil => rfl
  | cons a l ih =>
      simp only [List.all_cons]
      rw [h a (by simp), ih fun a ha => h a (by simp [ha])]

/-- The identical-images prescan is symmetric once the two images share
dimensions (the zipped iterators then pair the same coordinates). -/
theorem identicalImages_comm {img1 img2 : Image}
    (hdim : (img1.width, img1.height) = (img2.width, img2.height)) :
    identicalImages img1 img2 = identicalImages img2 img1 := by
  obtain ⟨hw, hh⟩ := Prod.mk.injEq .. ▸ hdim
  rw [identicalImages, identicalImages, ← hw, ← hh]
  exact list_all_congr _ fun c _ => by
    simp only [decide_eq_decide]
    exact eq_comm

/-- With equal dimensions the per-pixel classification is symmetric in the
two images: the delta magnitude is symmetric and the anti-aliasing test is
run on both images in both argument orders. -/
theorem classifyPixel_comm {img1 img2 : Image}
    (hdim : (img1.width, img1.height) = (img2.width, img2.height))
    (opts : Options) (x y : Nat) :
    classifyPixel img2 img1 opts x y = classifyPixel img1 img2 opts x y := by
  obtain ⟨hw, hh⟩ := Prod.mk.injEq .. ▸ hdim
  rw [classifyPixel, classifyPixel]
  simp only [abs_color_delta_comm (img2.pix x y) (img1.pix x y)]
  rw [show aaSuppressed img2 img1 opts x y = aaSuppressed img1 img2 opts x y by
    rw [aaSuppressed, aaSuppressed, ← hw, ← hh, Bool.or_comm]]

/-- A genuine-difference classification at a larger threshold is also a
genuine-difference classification at a smaller nonnegative threshold; only
`threshold` and `include_aa` enter the classification, and the
anti-aliasing test ignores the threshold. -/
theorem classifyPixel_genuineDiff_mono {img1 img2 : Image}
    {o1 o2 : Options} (haa : o1.include_aa = o2.include_aa)
    (ht0 : 0 ≤ o1.threshold) (ht : o1.threshold ≤ o2.threshold)
    {x y : Nat} (h : classifyPixel img1 img2 o2 x y = .genuineDiff) :
    classifyPixel img1 img2 o1 x y = .genuineDiff := by
  rw [classifyPixel_genuineDiff_iff] at h ⊢
  refine ⟨lt_of_le_of_lt ?_ h.1, ?_⟩
  · nlinarith [h.1, abs_nonneg (color_delta (img1.pix x y) (img2.pix x y) false)]
  · rw [aaSuppressed, haa]
    rw [aaSuppressed] at h
    exact h.2

theorem put_pixel_self (buf : Buffer) (x y : Nat) (c : Rgba) :
    put_pixel buf x y c x y = c := by
  simp [put_pixel]

theorem put_pixel_other (buf : Buffer) {x y x' y' : Nat} (c : Rgba)
    (h : ¬(x' = x ∧ y' = y)) : put_pixel buf x y c x' y' = buf x' y' := by
  simp [put_pixel, h]

theorem imageCoords_nodup (w h : Nat) : (imageCoords w h).Nodup := by
  rw [imageCoords]
  refine List.nodup_flatMap.mpr ⟨fun y _ => ?_, ?_⟩
  · exact (List.nodup_range _).map fun a b hab => by
      simpa using congrArg Prod.fst hab
  · refine (List.nodup_range h).imp ?_
    intro y1 y2 hne c hc1 hc2
    simp only [List.mem_map] at hc1 hc2
    obtain ⟨x1, _, rfl⟩ := hc1
    obtain ⟨x2, _, he⟩ := hc2
    have hsnd := congrArg Prod.snd he
    simp only [] at hsnd
    exact hne hsnd.symm

theorem draw_gray_pixel_other {x y x' y' : Nat} (rgba : Rgba) (alpha : ℚ)
    (buf : Buffer) (h : ¬(x' = x ∧ y' = y)) :
    draw_gray_pixel x y rgba alpha buf x' y' = buf x' y' := by
  simp [draw_gray_pixel, put_pixel, h]

/-- A step of the main loop never discards the output buffer, and only ever
writes at its own coordinate. -/
theorem pmStep_snd_some (img1 img2 : Image) (opts : Options)
    (n : Nat) (b : Buffer) (c : Nat × Nat) :
    ∃ b', (pmStep img1 img2 opts (n, some b) c).2 = some b'
      ∧ ∀ x y : Nat, ¬(x = c.1 ∧ y = c.2) → b' x y = b x y := by
  rcases hcl : classifyPixel img1 img2 opts c.1 c.2 with _ | _ | _
  · by_cases hm : opts.diff_mask
    · exact ⟨b, by simp [pmStep, hcl, hm], fun _ _ _ => rfl⟩
    · exact ⟨draw_gray_pixel c.1 c.2 (img1.pix c.1 c.2) opts.alpha b,
        by simp [pmStep, hcl, hm],
        fun x y hxy => draw_gray_pixel_other _ _ _ hxy⟩
  · by_cases hm : opts.diff_mask
    · exact ⟨b, by simp [pmStep, hcl, hm], fun _ _ _ => rfl⟩
    · exact ⟨put_pixel b c.1 c.2 opts.aa_color,
        by simp [pmStep, hcl, hm],
        fun x y hxy => put_pixel_other _ _ hxy⟩
  · exact ⟨put_pixel b c.1 c.2
        (if color_delta (img1.pix c.1 c.2) (img2.pix c.1 c.2) false < 0
         then opts.diff_color_alt.getD opts.diff_color else opts.diff_color),
      by simp [pmStep, hcl],
      fun x y hxy => put_pixel_other _ _ hxy⟩

/-- Folding the main loop over coordinates that avoid `(x, y)` never changes
the output value at `(x, y)`. -/
theorem foldl_pmStep_untouched (img1 img2 : Image) (opts : Options)
    {x y : Nat} :
    ∀ (l : List (Nat × Nat)), (x, y) ∉ l → ∀ (n : Nat) (b : Buffer),
      ∃ b', ((l.foldl (pmStep img1 img2 opts) (n, some b)).2 = some b'
        ∧ b' x y = b x y) := by
  intro l
  induction l with
  | nil => exact fun _ n b => ⟨b, rfl, rfl⟩
  | cons c l ih =>
      intro hmem n b
      obtain ⟨b1, hb1, hb1v⟩ :=
        pmStep_snd_some img1 img2 opts n b c
      have hstep : l.foldl (pmStep img1 img2 opts)
          (pmStep img1 img2 opts (n, some b) c)
          = l.foldl (pmStep img1 img2 opts)
            ((pmStep img1 img2 opts (n, some b) c).1, some b1) := by
        rw [show ((pmStep img1 img2 opts (n, some b) c).1, some b1)
          = pmStep img1 img2 opts (n, some b) c from (Prod.ext rfl hb1.symm)]
      obtain ⟨b', hb', hb'v⟩ := ih (fun hl => hmem (List.mem_cons_of_mem _ hl))
        (pmStep img1 img2 opts (n, some b) c).1 b1
      refine ⟨b', ?_, ?_⟩
      · rw [List.foldl_cons, hstep, hb']
      · rw [hb'v, hb1v]
        intro hxy
        exact hmem (by rw [show c = (x, y) from Prod.ext hxy.1.symm hxy.2.symm]; simp)

/-- In mask mode, folding the main loop keeps `(x, y)` blank whenever it is
not classified as a genuine difference: matched and anti-aliased
coordinates draw nothing, and a genuine-difference draw at another
coordinate does not touch `(x, y)`. -/
theorem foldl_pmStep_mask_blank (img1 img2 : Image) (opts : Options)
    (hm : opts.diff_mask = true) {x y : Nat}
    (hc : classifyPixel img1 img2 opts x y ≠ .genuineDiff) :
    ∀ (l : List (Nat × Nat)) (n : Nat) (b : Buffer), b x y = blank_pixel →
      ∃ b', ((l.foldl (pmStep img1 img2 opts) (n, some b)).2 = some b'
        ∧ b' x y = blank_pixel) := by
  intro l
  induction l with
  | nil => exact fun n b hb => ⟨b, rfl, hb⟩
  | cons c l ih =>
      intro n b hb
      rcases hcl : classifyPixel img1 img2 opts c.1 c.2 with _ | _ | _
      · obtain ⟨b', hb', hv⟩ := ih (pmStep img1 img2 opts (n, some b) c).1 b hb
        refine ⟨b', ?_, hv⟩
        rw [List.foldl_cons,
          show pmStep img1 img2 opts (n, some b) c
            = ((pmStep img1 img2 opts (n, some b) c).1, some b) from
            Prod.ext rfl (by simp [pmStep, hcl, hm]), hb']
      · obtain ⟨b', hb', hv⟩ := ih (pmStep img1 img2 opts (n, some b) c).1 b hb
        refine ⟨b', ?_, hv⟩
        rw [List.foldl_cons,
          show pmStep img1 img2 opts (n, some b) c
            = ((pmStep img1 img2 opts (n, some b) c).1, some b) from
            Prod.ext rfl (by simp [pmStep, hcl, hm]), hb']
      · have hne : ¬(x = c.1 ∧ y = c.2) := by
          rintro ⟨rfl, rfl⟩
          exact hc hcl
        obtain ⟨b', hb', hv⟩ := ih (pmStep img1 img2 opts (n, some b) c).1
          (put_pixel b c.1 c.2
            (if color_delta (img1.pix c.1 c.2) (img2.pix c.1 c.2) false < 0
             then opts.diff_color_alt.getD opts.diff_color else opts.diff_color))
          (by rw [put_pixel_other _ _ hne]; exact hb)
        refine ⟨b', ?_, hv⟩
        rw [List.foldl_cons,
          show pmStep img1 img2 opts (n, some b) c
            = ((pmStep img1 img2 opts (n, some b) c).1,
               some (put_pixel b c.1 c.2
                 (if color_delta (img1.pix c.1 c.2) (img2.pix c.1 c.2) false < 0
                  then opts.diff_color_alt.getD opts.diff_color
                  else opts.diff_color))) from
            Prod.ext rfl (by simp [pmStep, hcl]), hb']

theorem outputPixel_ok {r : Nat × Option Buffer} {b : Buffer}
    (h : r.2 = some b) (x y : Nat) :
    outputPixel (Except.ok r) x y = some (b x y) := by
  obtain ⟨n, o⟩ := r
  cases o with
  | none => simp at h
  | some bb =>
      simp only [Option.some.injEq] at h
      subst h
      rfl

theorem foldl_pmStep_snd_isSome (img1 img2 : Image) (opts : Options) :
    ∀ (l : List (Nat × Nat)) (n : Nat) (b : Buffer),
      ∃ b', (l.foldl (pmStep img1 img2 opts) (n, some b)).2 = some b' := by
  intro l
  induction l with
  | nil => exact fun n b => ⟨b, rfl⟩
  | cons c l ih =>
      intro n b
      obtain ⟨b1, hb1, _⟩ := pmStep_snd_some img1 img2 opts n b c
      obtain ⟨b', hb'⟩ := ih (pmStep img1 img2 opts (n, some b) c).1 b1
      refine ⟨b', ?_⟩
      rw [List.foldl_cons,
        show pmStep img1 img2 opts (n, some b) c
          = ((pmStep img1 img2 opts (n, some b) c).1, some b1) from
          Prod.ext rfl hb1, hb']

/-- A genuine-difference classification at an in-range coordinate forces the
general path (identical images would make its delta zero). -/
theorem not_identical_of_genuineDiff {img1 img2 : Image} {opts : Options}
    {x y : Nat} (hx : x < img1.width) (hy : y < img1.height)
    (hc : classifyPixel img1 img2 opts x y = .genuineDiff) :
    identicalImages img1 img2 = false := by
  cases hid : identicalImages img1 img2 with
  | false => rfl
  | true =>
      exfalso
      have hpix := identicalImages_pix hid hx hy
      have h1 := (classifyPixel_genuineDiff_iff img1 img2 opts x y).mp hc
      rw [color_delta_self hpix] at h1
      have := max_delta_nonneg opts.threshold
      simp only [abs_zero] at h1
      exact absurd h1.1 (not_lt.mpr this)

/-- What a `pixelmatch` run with an output buffer writes at an in-range
genuine-difference coordinate: `diff_color_alt` (falling back to
`diff_color`) when the signed delta is negative, `diff_color` otherwise. -/
theorem pixelmatch_output_at_diff {img1 img2 : Image} {opts : Options}
    (hdim : (img1.width, img1.height) = (img2.width, img2.height))
    {x y : Nat} (hx : x < img1.width) (hy : y < img1.height)
    (hc : classifyPixel img1 img2 opts x y = .genuineDiff) :
    outputPixel (pixelmatch img1 img2 true none none (some opts)) x y =
      some (if color_delta (img1.pix x y) (img2.pix x y) false < 0
            then opts.diff_color_alt.getD opts.diff_color
            else opts.diff_color) := by
  have hni := not_identical_of_genuineDiff hx hy hc
  rw [pixelmatch, if_neg (by simp [hdim]), if_neg (by simp [expectedDimsMismatch])]
  simp only [Option.getD_some, hni, Bool.false_eq_true, if_false, if_true]
  have hmem : (x, y) ∈ imageCoords img1.width img1.height :=
    mem_imageCoords.mpr ⟨hx, hy⟩
  obtain ⟨l1, l2, hsplit⟩ := List.append_of_mem hmem
  have hnd := imageCoords_nodup img1.width img1.height
  rw [hsplit] at hnd
  have hx2 : (x, y) ∉ l2 :=
    (List.nodup_cons.mp ((List.sublist_append_right l1 _).nodup hnd)).1
  rw [hsplit, List.foldl_append]
  obtain ⟨b1, hb1⟩ := foldl_pmStep_snd_isSome img1 img2 opts l1 0
    (fun _ _ => blank_pixel)
  rw [List.foldl_cons,
    show l1.foldl (pmStep img1 img2 opts) (0, some (fun _ _ => blank_pixel))
      = ((l1.foldl (pmStep img1 img2 opts) (0, some (fun _ _ => blank_pixel))).1,
         some b1) from Prod.ext rfl hb1,
    show pmStep img1 img2 opts
        ((l1.foldl (pmStep img1 img2 opts) (0, some (fun _ _ => blank_pixel))).1,
         some b1) (x, y)
      = ((pmStep img1 img2 opts
          ((l1.foldl (pmStep img1 img2 opts)
            (0, some (fun _ _ => blank_pixel))).1, some b1) (x, y)).1,
         some (put_pixel b1 x y
           (if color_delta (img1.pix x y) (img2.pix x y) false < 0
            then opts.diff_color_alt.getD opts.diff_color
            else opts.diff_color))) from Prod.ext rfl (by simp [pmStep, hc])]
  obtain ⟨b', hb', hval⟩ := foldl_pmStep_untouched img1 img2 opts l2 hx2
    (pmStep img1 img2 opts
      ((l1.foldl (pmStep img1 img2 opts) (0, some (fun _ _ => blank_pixel))).1,
       some b1) (x, y)).1
    (put_pixel b1 x y
      (if color_delta (img1.pix x y) (img2.pix x y) false < 0
       then opts.diff_color_alt.getD opts.diff_color
       else opts.diff_color))
  rw [outputPixel_ok hb', hval, put_pixel_self]

/-- The `zeroes` counter of the neighbour scan counts exactly the neighbours
with zero brightness-only delta. -/
theorem foldl_aaStep_zeroes (img : Image) (x y w h : Nat) :
    ∀ (l : List (Int × Int)) (st : AAState),
      (l.foldl (aaStep img x y w h) st).zeroes =
        st.zeroes + l.countP (fun off => decide (aaDelta img x y w h off = 0)) := by
  intro l
  induction l with
  | nil => intro st; simp
  | cons off l ih =>
      intro st
      rw [List.foldl_cons, ih, List.countP_cons]
      by_cases hd : aaDelta img x y w h off = 0
      · simp [aaStep, hd]
        omega
      · rw [aaStep]
        simp only [hd, if_false, decide_eq_true_eq]
        split_ifs <;> simp [hd]

theorem aaScan_zeroes (img : Image) (x y w h : Nat) :
    (aaScan img x y w h).zeroes = zeroDeltaNeighborCount img x y w h := by
  rw [aaScan, zeroDeltaNeighborCount, foldl_aaStep_zeroes]
  simp

/-- If no neighbour's brightness-only delta is negative, the scan's running
minimum stays at its initial value `0`. -/
theorem foldl_aaStep_min_zero (img : Image) (x y w h : Nat) :
    ∀ (l : List (Int × Int)),
      (∀ off ∈ l, ¬aaDelta img x y w h off < 0) →
      ∀ (st : AAState), st.min = 0 →
        (l.foldl (aaStep img x y w h) st).min = 0 := by
  intro l
  induction l with
  | nil => exact fun _ st hst => hst
  | cons off l ih =>
      intro hno st hst
      rw [List.foldl_cons]
      refine ih (fun o ho => hno o (List.mem_cons_of_mem _ ho)) _ ?_
      rw [aaStep]
      split_ifs with h1 h2 h3
      · exact hst
      · rw [hst] at h2
        exact absurd h2 (hno off (List.mem_cons_self ..))
      · exact hst
      · exact hst

/-- If no neighbour's brightness-only delta is positive, the scan's running
maximum stays at its initial value `0`. -/
theorem foldl_aaStep_max_zero (img : Image) (x y w h : Nat) :
    ∀ (l : List (Int × Int)),
      (∀ off ∈ l, ¬0 < aaDelta img x y w h off) →
      ∀ (st : AAState), st.max = 0 →
        (l.foldl (aaStep img x y w h) st).max = 0 := by
  intro l
  induction l with
  | nil => exact fun _ st hst => hst
  | cons off l ih =>
      intro hno st hst
      rw [List.foldl_cons]
      refine ih (fun o ho => hno o (List.mem_cons_of_mem _ ho)) _ ?_
      rw [aaStep]
      split_ifs with h1 h2 h3
      · exact hst
      · exact hst
      · rw [hst] at h3
        exact absurd h3 (hno off (List.mem_cons_self ..))
      · exact hst

/-- The two early-rejection rules of `antialiased`: more than two zero-delta
neighbours, or a scan whose minimum or maximum never moved off `0`, mean the
pixel is not anti-aliased. -/
theorem antialiased_false_cases (img1 img2 : Image) (x y w h : Nat)
    (hrej : zeroDeltaNeighborCount img1 x y w h > 2
      ∨ (aaScan img1 x y w h).min = 0 ∨ (aaScan img1 x y w h).max = 0) :
    antialiased img1 x y w h img2 = false := by
  rw [antialiased]
  by_cases hz : (aaScan img1 x y w h).zeroes > 2
  · rw [if_pos hz]
  · rw [if_neg hz]
    rcases hrej with hcount | hminmax
    · rw [aaScan_zeroes] at hz
      exact absurd hcount hz
    · rw [if_pos hminmax]

/-! ## Claim theorems

Concrete witnesses evaluate the rational arithmetic of the embedding by
kernel reduction; the following local attribute lets the elaborator unfold
the `Rat` primitives the same way the kernel does. -/

section ClaimTheorems

attribute [local semireducible] Rat.add Rat.mul Rat.sub Rat.inv Rat.ofScientific

/-- C1 (counterexample): comparing a 1×1 black `img1` against a 1×1 white
`img2` with `diff_color_alt` configured, image1's pixel is perceptually
darker than image2's, the pixel is classified as a genuine difference, yet
the output holds `diff_color` (red), not the configured `diff_color_alt`
(green): `diff_color_alt` is used when `delta < 0`, which happens when
image1 is the brighter one. -/
theorem C1_counterexample :
    blendedLuma ((onePx blackPx).pix 0 0) < blendedLuma ((onePx whitePx).pix 0 0)
    ∧ classifyPixel (onePx blackPx) (onePx whitePx) altOptions 0 0 = .genuineDiff
    ∧ altOptions.diff_color_alt = some ⟨0, 255, 0, 255⟩
    ∧ outputPixel (pixelmatch (onePx blackPx) (onePx whitePx) true none none
        (some altOptions)) 0 0 = some altOptions.diff_color
    ∧ altOptions.diff_color ≠ ⟨0, 255, 0, 255⟩ :=
  ⟨by decide, by decide, rfl, by decide, by decide⟩

/-- C1 (amended): for every comparison with an output buffer and an
in-range coordinate classified as a genuine difference, the pixel is drawn
with `diff_color_alt` (falling back to `diff_color` when absent) exactly
when image1's pixel is perceptually *brighter* than image2's pixel (the
code draws `diff_color_alt` when the signed delta is negative, i.e. when
`Y1 > Y2`), and with `diff_color` otherwise. -/
theorem C1_diff_color_alt_direction {img1 img2 : Image} {opts : Options}
    (hdim : (img1.width, img1.height) = (img2.width, img2.height))
    {x y : Nat} (hx : x < img1.width) (hy : y < img1.height)
    (hc : classifyPixel img1 img2 opts x y = .genuineDiff) :
    outputPixel (pixelmatch img1 img2 true none none (some opts)) x y =
      some (if blendedLuma (img1.pix x y) > blendedLuma (img2.pix x y)
            then opts.diff_color_alt.getD opts.diff_color
            else opts.diff_color) := by
  rw [pixelmatch_output_at_diff hdim hx hy hc]
  have hne : img1.pix x y ≠ img2.pix x y := by
    intro he
    have h1 := (classifyPixel_genuineDiff_iff img1 img2 opts x y).mp hc
    rw [color_delta_self he, abs_zero] at h1
    exact absurd h1.1 (not_lt.mpr (max_delta_nonneg _))
  exact congrArg some (if_congr (color_delta_neg_iff hne) rfl rfl)

/-- C1 witness: white-vs-black (image1 brighter) draws the configured
alternative color. -/
theorem C1_witness :
    outputPixel (pixelmatch (onePx whitePx) (onePx blackPx) true none none
        (some altOptions)) 0 0 =
      some (if blendedLuma ((onePx whitePx).pix 0 0)
              > blendedLuma ((onePx blackPx).pix 0 0)
            then altOptions.diff_color_alt.getD altOptions.diff_color
            else altOptions.diff_color) :=
  @C1_diff_color_alt_direction (onePx whitePx) (onePx blackPx) altOptions rfl
    0 0 (by decide) (by decide) (by decide)

/-- C2: in the general path a pixel pair is classified as matching exactly
when `|color_delta| ≤ 35215 · threshold²`, and a pair with delta `0`
matches for every threshold in `[0, 1]`. -/
theorem C2_matching_iff_below_max_delta (img1 img2 : Image) (opts : Options)
    (x y : Nat) :
    (classifyPixel img1 img2 opts x y = .matched ↔
      |color_delta (img1.pix x y) (img2.pix x y) false|
        ≤ 35215 * opts.threshold * opts.threshold)
    ∧ (color_delta (img1.pix x y) (img2.pix x y) false = 0 →
        0 ≤ opts.threshold → opts.threshold ≤ 1 →
        classifyPixel img1 img2 opts x y = .matched) := by
  refine ⟨classifyPixel_matched_iff img1 img2 opts x y, fun h0 _ _ => ?_⟩
  rw [classifyPixel_matched_iff, h0, abs_zero]
  exact max_delta_nonneg _

/-- C2 witness: a pair of identical 1×1 images has delta `0` and is
classified as matching at the default threshold `0.1 ∈ [0, 1]`. -/
theorem C2_witness :
    classifyPixel (onePx blackPx) (onePx blackPx) default_options 0 0 = .matched :=
  (C2_matching_iff_below_max_delta (onePx blackPx) (onePx blackPx)
    default_options 0 0).2 (color_delta_self rfl false) (by decide) (by decide)

/-- C3: `color_delta` returns exactly `0` on bit-identical colors, and on
distinct colors it is negative exactly when color A's (alpha-blended) luma
exceeds color B's, and nonnegative otherwise. -/
theorem C3_color_delta_sign (p1 p2 : Rgba) :
    (p1 = p2 → color_delta p1 p2 false = 0)
    ∧ (p1 ≠ p2 →
        (color_delta p1 p2 false < 0 ↔ blendedLuma p1 > blendedLuma p2)) :=
  ⟨fun h => color_delta_self h false, fun h => color_delta_neg_iff h⟩

/-- C3 witness: instantiated at bit-identical black pixels and at the
distinct black/white pair. -/
theorem C3_witness :
    color_delta blackPx blackPx false = 0
    ∧ (color_delta blackPx whitePx false < 0
        ↔ blendedLuma blackPx > blendedLuma whitePx) :=
  ⟨(C3_color_delta_sign blackPx blackPx).1 rfl,
   (C3_color_delta_sign blackPx whitePx).2 (by decide)⟩

/-- C4: comparing a valid image against itself returns a diff count of
exactly `0`, for every option record and with or without an output
buffer. -/
theorem C4_identity (img : Image) (hasOutput : Bool)
    (options : Option Options) :
    diffCount (pixelmatch img img hasOutput none none options) = some 0 := by
  rw [diffCount_pixelmatch]
  simp [identicalImages_self, expectedDimsMismatch]

/-- C5: mismatched image dimensions fail with the size error; a supplied
expected width/height pair that differs from the decoded dimensions fails
with the distinct data-size validation error. -/
theorem C5_dimension_errors :
    (∀ (img1 img2 : Image) (ho : Bool) (w h : Option Nat) (o : Option Options),
        (img1.width, img1.height) ≠ (img2.width, img2.height) →
        pixelmatch img1 img2 ho w h o = .error .sizesDoNotMatch)
    ∧ (∀ (img1 img2 : Image) (ho : Bool) (w h : Nat) (o : Option Options),
        (img1.width, img1.height) = (img2.width, img2.height) →
        (w, h) ≠ (img1.width, img1.height) →
        pixelmatch img1 img2 ho (some w) (some h) o = .error .dataSizeMismatch)
    ∧ PmError.sizesDoNotMatch ≠ PmError.dataSizeMismatch := by
  refine ⟨?_, ?_, by decide⟩
  · intro i1 i2 ho w h o hne
    rw [pixelmatch, if_pos hne]
  · intro i1 i2 ho w h o hdim hne
    rw [pixelmatch, if_neg (fun hc => hc hdim),
      if_pos (by simp [expectedDimsMismatch, hne])]

/-- C5 witness: a 1×1 vs 2×1 comparison fails with the size error; a 1×1
pair with expected dimensions 5×7 fails with the data-size error. -/
theorem C5_witness :
    pixelmatch (onePx blackPx) (twoPx whitePx) false none none none
      = .error .sizesDoNotMatch
    ∧ pixelmatch (onePx blackPx) (onePx whitePx) false (some 5) (some 7) none
      = .error .dataSizeMismatch :=
  ⟨C5_dimension_errors.1 _ _ false none none none (by decide),
   C5_dimension_errors.2.1 _ _ false 5 7 none rfl (by decide)⟩

/-- C6: the anti-alias detector returns `false` when the clamped 3×3 scan
finds more than 2 neighbours with zero brightness-only delta against the
center, and also when the scan left its running minimum at `0` (no
neighbour with negative delta) or its running maximum at `0` (no neighbour
with positive delta). -/
theorem C6_antialiased_rejections (img1 img2 : Image) (x y w h : Nat)
    (hrej : zeroDeltaNeighborCount img1 x y w h > 2
      ∨ (aaScan img1 x y w h).min = 0 ∨ (aaScan img1 x y w h).max = 0) :
    antialiased img1 x y w h img2 = false :=
  antialiased_false_cases img1 img2 x y w h hrej

/-- C6 witness: in a constant 1×1 image every clamped neighbour equals the
center, so all 8 zero-delta tallies trip the first rejection rule. -/
theorem C6_witness :
    antialiased (onePx blackPx) 0 0 1 1 (onePx whitePx) = false :=
  C6_antialiased_rejections (onePx blackPx) (onePx whitePx) 0 0 1 1
    (Or.inl (by decide))

/-- C7: with all other options fixed, the diff count is non-increasing in
the threshold over `[0, 1]`: a pixel counted at a larger threshold is also
counted at every smaller one. -/
theorem C7_threshold_monotone (img1 img2 : Image) (ho : Bool)
    (t1 t2 : ℚ) (ia : Bool) (al : ℚ) (ac dc : Rgba) (dca : Option Rgba)
    (dm : Bool) (ht0 : 0 ≤ t1) (ht12 : t1 ≤ t2) (_ht21 : t2 ≤ 1)
    {n1 n2 : Nat}
    (h1 : diffCount (pixelmatch img1 img2 ho none none
      (some ⟨t1, ia, al, ac, dc, dca, dm⟩)) = some n1)
    (h2 : diffCount (pixelmatch img1 img2 ho none none
      (some ⟨t2, ia, al, ac, dc, dca, dm⟩)) = some n2) :
    n2 ≤ n1 := by
  rw [diffCount_pixelmatch] at h1 h2
  by_cases hdim : (img1.width, img1.height) ≠ (img2.width, img2.height)
  · rw [if_pos hdim] at h1
    simp at h1
  · rw [if_neg hdim, if_neg (by simp [expectedDimsMismatch])] at h1 h2
    by_cases hid : identicalImages img1 img2 = true
    · rw [if_pos hid] at h1 h2
      simp only [Option.some.injEq, Option.getD_some] at h1 h2
      omega
    · rw [if_neg hid] at h1 h2
      simp only [Option.some.injEq, Option.getD_some] at h1 h2
      subst h1
      subst h2
      refine List.countP_mono_left fun c _ hc => ?_
      rw [decide_eq_true_eq] at hc ⊢
      exact @classifyPixel_genuineDiff_mono img1 img2
        ⟨t1, ia, al, ac, dc, dca, dm⟩ ⟨t2, ia, al, ac, dc, dca, dm⟩
        rfl ht0 ht12 c.1 c.2 hc

/-- C7 witness: on the 1×1 black/white pair, threshold `1` counts `0`
pixels while threshold `0.1` counts `1`. -/
theorem C7_witness : (0 : Nat) ≤ 1 :=
  C7_threshold_monotone (onePx blackPx) (onePx whitePx) false
    0.1 1 false 0.1 ⟨255, 255, 0, 255⟩ ⟨255, 0, 0, 255⟩ none false
    (by decide) (by decide) (by decide) (by decide) (by decide)

/-- C8: in mask mode every coordinate that is not classified as a genuine
difference — matched or anti-aliased — is left at the output's initial
blank (all-zero) pixel. -/
theorem C8_mask_leaves_blank {img1 img2 : Image} {opts : Options}
    (hdim : (img1.width, img1.height) = (img2.width, img2.height))
    (hm : opts.diff_mask = true) {x y : Nat}
    (hc : classifyPixel img1 img2 opts x y ≠ .genuineDiff) :
    outputPixel (pixelmatch img1 img2 true none none (some opts)) x y
      = some blank_pixel := by
  rw [pixelmatch, if_neg (by simp [hdim]),
    if_neg (by simp [expectedDimsMismatch])]
  rcases hid : identicalImages img1 img2 with _ | _
  · simp only [Option.getD_some, hid, Bool.false_eq_true, if_false, if_true]
    obtain ⟨b', hb', hv⟩ := foldl_pmStep_mask_blank img1 img2 opts hm hc
      (imageCoords img1.width img1.height) 0 (fun _ _ => blank_pixel) rfl
    rw [outputPixel_ok hb', hv]
  · simp only [Option.getD_some, hid, if_true]
    simp [outputPixel, hm]

/-- C8 witness: in the 2×1 fixture the pixels at `(0, 0)` agree, so in mask
mode that coordinate stays blank. -/
theorem C8_witness :
    outputPixel (pixelmatch (twoPx blackPx) (twoPx whitePx) true none none
      (some maskOptions)) 0 0 = some blank_pixel :=
  @C8_mask_leaves_blank (twoPx blackPx) (twoPx whitePx) maskOptions rfl rfl
    0 0 (by decide)

/-- C9: the diff count is symmetric in the two images: the delta magnitude
is symmetric and the anti-aliasing test is applied to both images in both
orders (and both validation errors are symmetric as well). -/
theorem C9_count_symmetric (img1 img2 : Image) (ho : Bool)
    (w h : Option Nat) (o : Option Options) :
    diffCount (pixelmatch img1 img2 ho w h o)
      = diffCount (pixelmatch img2 img1 ho w h o) := by
  by_cases hdim : (img1.width, img1.height) = (img2.width, img2.height)
  · obtain ⟨hw, hh⟩ := Prod.mk.injEq .. ▸ hdim
    rw [diffCount_pixelmatch, diffCount_pixelmatch,
      if_neg (show ¬(img1.width, img1.height) ≠ (img2.width, img2.height)
        from fun hne => hne hdim),
      if_neg (show ¬(img2.width, img2.height) ≠ (img1.width, img1.height)
        from fun hne => hne hdim.symm)]
    by_cases hexp : expectedDimsMismatch w h (img1.width, img1.height) = true
    · have hexp2 : expectedDimsMismatch w h (img2.width, img2.height) = true := by
        rw [← hw, ← hh]; exact hexp
      rw [if_pos hexp, if_pos hexp2]
    · have hexp2 : ¬expectedDimsMismatch w h (img2.width, img2.height) = true := by
        rw [← hw, ← hh]; exact hexp
      rw [if_neg hexp, if_neg hexp2]
      by_cases hid : identicalImages img1 img2 = true
      · have hid2 : identicalImages img2 img1 = true := by
          rw [← identicalImages_comm hdim]; exact hid
        rw [if_pos hid, if_pos hid2]
      · have hid2 : ¬identicalImages img2 img1 = true := fun hc =>
          hid (by rw [identicalImages_comm hdim]; exact hc)
        rw [if_neg hid, if_neg hid2,
          show imageCoords img2.width img2.height
            = imageCoords img1.width img1.height from by rw [hw, hh]]
        exact congrArg some (List.countP_congr fun c _ => by
          rw [classifyPixel_comm hdim])
  · rw [show pixelmatch img1 img2 ho w h o = .error .sizesDoNotMatch from
        by rw [pixelmatch, if_pos hdim],
      show pixelmatch img2 img1 ho w h o = .error .sizesDoNotMatch from
        by rw [pixelmatch, if_pos (fun he => hdim he.symm)]]

/-- C10: the caller-supplied dimension validation runs only when both the
width and the height are present: with either absent the comparison
behaves exactly as with neither, and never raises the data-size
validation error. -/
theorem C10_partial_expected_dims (img1 img2 : Image) (ho : Bool)
    (w h : Option Nat) (o : Option Options) (hone : w = none ∨ h = none) :
    pixelmatch img1 img2 ho w h o = pixelmatch img1 img2 ho none none o
    ∧ pixelmatch img1 img2 ho w h o ≠ .error .dataSizeMismatch := by
  have hexp : expectedDimsMismatch w h (img1.width, img1.height) = false := by
    rcases hone with rfl | rfl
    · rfl
    · cases w <;> rfl
  have hexpn : expectedDimsMismatch none none (img1.width, img1.height) = false :=
    rfl
  have hmain : pixelmatch img1 img2 ho w h o
      = pixelmatch img1 img2 ho none none o := by
    rw [pixelmatch, pixelmatch]
    by_cases hdim : (img1.width, img1.height) ≠ (img2.width, img2.height)
    · rw [if_pos hdim, if_pos hdim]
    · rw [if_neg hdim, if_neg hdim,
        if_neg (show ¬expectedDimsMismatch w h (img1.width, img1.height) = true
          from by rw [hexp]; simp),
        if_neg (show ¬expectedDimsMismatch none none (img1.width, img1.height)
            = true from by rw [hexpn]; simp)]
  refine ⟨hmain, ?_⟩
  rw [hmain, pixelmatch]
  by_cases hdim : (img1.width, img1.height) ≠ (img2.width, img2.height)
  · rw [if_pos hdim]
    simp
  · rw [if_neg hdim,
      if_neg (show ¬expectedDimsMismatch none none (img1.width, img1.height)
          = true from by rw [hexpn]; simp)]
    by_cases hid : identicalImages img1 img2 = true
    · rw [if_pos hid]
      simp
    · rw [if_neg hid]
      simp

/-- C10 witness: a mismatching expected width alone (`some 999`, height
absent) leaves the comparison identical to one with no expected
dimensions. -/
theorem C10_witness :
    pixelmatch (onePx blackPx) (onePx whitePx) false (some 999) none none
      = pixelmatch (onePx blackPx) (onePx whitePx) false none none none :=
  (C10_partial_expected_dims (onePx blackPx) (onePx whitePx) false
    (some 999) none none (Or.inr rfl)).1

end ClaimTheorems

end Pixelmatch
